import Mathlib

/-!
Verification development for the AI-Resume-Analyzer repository.

The file embeds, as executable Lean definitions, the keyword-heuristic
recommender of `scripts/recommend.py`, the request handler of
`scripts/recommend_server.py`, and the cosine-similarity computation of
`scripts/embeddings_recommender.py`, and proves or refutes the frozen
claims about them.
-/

/-! ## Character-level helpers (the regex operations of `recommend.py`) -/

/-- Whitespace characters matched by the regex class used in
`re.sub(r"\s+", " ", text)` and by `str.split` / `str.strip`
(ASCII range, which covers all inputs the claims mention). -/
def isPySpace (c : Char) : Bool :=
  decide (c = ' ' ∨ c = '\t' ∨ c = '\n' ∨ c = '\r' ∨ c = Char.ofNat 11 ∨ c = Char.ofNat 12)

/-- Word characters of the regex class used by `re.split(r"\W+", text)`. -/
def isWordChar (c : Char) : Bool := c.isAlphanum || c == '_'

/-- One step of `re.sub(r"[\/_\-\+]", " ", text)`: separators become spaces. -/
def sepToSpace (c : Char) : Char :=
  if c = '/' ∨ c = '_' ∨ c = '-' ∨ c = '+' then ' ' else c

/-- `re.sub(r"\s+", " ", text)`: every maximal whitespace run becomes one
space.  The flag records whether the previous character was whitespace. -/
def collapseWsAux : List Char → Bool → List Char
  | [], _ => []
  | c :: rest, prevSpace =>
    if isPySpace c then
      if prevSpace then collapseWsAux rest true
      else ' ' :: collapseWsAux rest true
    else c :: collapseWsAux rest false

/-- `str.strip()`: drop leading and trailing whitespace. -/
def stripWs (l : List Char) : List Char :=
  ((l.dropWhile isPySpace).reverse.dropWhile isPySpace).reverse

/-- Body of `_normalize` in `recommend.py`: lowercase, separators to
spaces, collapse whitespace runs, strip. -/
def pyNormalizeChars (l : List Char) : List Char :=
  stripWs (collapseWsAux ((l.map Char.toLower).map sepToSpace) false)

/-- `_normalize(text)` from `recommend.py`. -/
def normalizeText (s : String) : String := ⟨pyNormalizeChars s.data⟩

/-- Maximal runs of characters satisfying `keep`; the accumulator holds the
current run reversed. -/
def runsByAux (keep : Char → Bool) : List Char → List Char → List (List Char)
  | [], acc => if acc.isEmpty then [] else [acc.reverse]
  | c :: rest, acc =>
    if keep c then runsByAux keep rest (c :: acc)
    else if acc.isEmpty then runsByAux keep rest []
    else acc.reverse :: runsByAux keep rest []

/-- Maximal runs of characters satisfying `keep` (used for both
`re.split(r"\W+", ...)` and `str.split()`, whose nonempty pieces are
exactly such runs). -/
def runsBy (keep : Char → Bool) (l : List Char) : List (List Char) :=
  runsByAux keep l []

/-- `_tokenize(text)` from `recommend.py`: split the normalized text on
non-word characters and drop empties. -/
def tokenize (s : String) : List String :=
  (runsBy isWordChar (pyNormalizeChars s.data)).map String.mk

/-- Python substring containment `p in s`. -/
def isSubstr (p : List Char) : List Char → Bool
  | [] => p.isEmpty
  | c :: rest => p.isPrefixOf (c :: rest) || isSubstr p rest

/-- Python `str.split()` with no argument: whitespace-separated words. -/
def wsWords (s : String) : List String :=
  (runsBy (fun c => !(isPySpace c)) s.data).map String.mk

/-- Keyword normalization inside the loop of `recommend_jobs`:
`re.sub(r"[\/_\-\+]", " ", kw.lower()).strip()` (no whitespace collapsing). -/
def kwNorm (kw : String) : String :=
  ⟨stripWs ((kw.data.map Char.toLower).map sepToSpace)⟩

/-- Normalization applied to a recorded reason string on line 133 of
`recommend.py`: `re.sub(r"[\/_\-\+]", " ", r).strip()` (no lowercasing). -/
def reasonNorm (r : String) : String :=
  ⟨stripWs (r.data.map sepToSpace)⟩

/-! ## The static tables of `recommend.py` -/

def JOB_KEYWORDS : List (String × List String) := [
  ("software", ["software", "engineer", "developer", "javascript", "python", "java", "react", "node"]),
  ("data_scientist", ["data", "machine learning", "ml", "model", "statistics", "python", "pandas", "numpy"]),
  ("product_manager", ["product", "roadmap", "stakeholder", "product management", "pm", "strategy"]),
  ("designer", ["design", "ux", "ui", "figma", "sketch", "prototype", "visual"]),
  ("devops_engineer", ["devops", "ci/cd", "docker", "kubernetes", "aws", "azure", "gcp", "infrastructure"]),
  ("qa_engineer", ["test", "qa", "automation", "selenium", "jest", "pytest"]),
  ("technical_writer", ["documentation", "write", "technical writing", "docs"]),
  ("teacher", ["teaching", "teacher", "curriculum", "lesson", "classroom", "student", "tutor", "education"]),
  ("animator", ["animation", "after effects", "aftereffects", "maya", "blender", "3d", "render", "storyboard", "animator"]),
  ("accountant", ["accounting", "bookkeeping", "finance", "tax", "quickbooks", "audit", "accounts payable", "accounts receivable"]),
  ("nurse", ["nurse", "rn", "patient care", "clinical", "ward", "patient", "nursing"]),
  ("doctor", ["doctor", "physician", "md", "medical", "clinical", "patient care"]),
  ("marketing_manager", ["marketing", "seo", "campaign", "content", "social media", "google analytics", "email marketing", "growth"]),
  ("sales_rep", ["sales", "quota", "crm", "pipeline", "prospecting", "negotiation", "account executive", "bdm"]),
  ("hr_manager", ["hr", "human resources", "talent acquisition", "recruiting", "onboarding", "employee relations"]),
  ("graphic_designer", ["photoshop", "illustrator", "figma", "adobe", "design", "branding", "visual design"]),
  ("project_manager", ["project manager", "project management", "scrum", "pmp", "gantt", "stakeholder management", "delivery"]),
  ("social_worker", ["social work", "social worker", "case management", "counseling", "community"])]

def JOB_TITLES : List (String × String) := [
  ("software", "Software Engineer"),
  ("data_scientist", "Data Scientist"),
  ("product_manager", "Product Manager"),
  ("designer", "Designer / UX"),
  ("devops_engineer", "DevOps Engineer"),
  ("qa_engineer", "QA / Test Engineer"),
  ("technical_writer", "Technical Writer"),
  ("teacher", "Teacher / Educator"),
  ("animator", "Animator / Motion Designer"),
  ("accountant", "Accountant / Bookkeeper"),
  ("nurse", "Nurse"),
  ("doctor", "Physician / Doctor"),
  ("marketing_manager", "Marketing Manager"),
  ("sales_rep", "Sales Representative"),
  ("hr_manager", "HR / People Operations"),
  ("graphic_designer", "Graphic Designer"),
  ("project_manager", "Project Manager"),
  ("social_worker", "Social Worker")]

def SPECIAL_WEIGHTS : List (String × Nat) := [
  ("ci cd", 3),
  ("ci/cd", 3),
  ("cicd", 3),
  ("docker", 3),
  ("kubernetes", 3),
  ("aws", 3),
  ("devops", 3),
  ("infrastructure", 2),
  ("machine learning", 2),
  ("python", 2),
  ("data", 2)]

/-- `SPECIAL_WEIGHTS.get(k_norm, 1)`. -/
def kwWeight (kn : String) : Nat := (SPECIAL_WEIGHTS.lookup kn).getD 1

/-! ## The scoring loop of `recommend_jobs` -/

/-- Match decision for one normalized keyword (lines 110-123 of
`recommend.py`): a single word matches by token membership; a phrase
matches as a substring of the normalized text, or when all of its words
appear among the tokens. -/
def kwMatches (tokens : List String) (normalized : String) (kn : String) : Bool :=
  if (kn.data.contains ' ') = false then tokens.contains kn
  else if isSubstr kn.data normalized.data then true
  else
    let parts := wsWords kn
    (parts.isEmpty = false) && parts.all (fun p => tokens.contains p)

structure CatScore where
  score : Nat
  reasons : List String
deriving DecidableEq

/-- Line 133 of `recommend.py`: some recorded reason, re-normalized,
carries weight at least 3 in the override table. -/
def hasHighSignal (reasons : List String) : Bool :=
  reasons.any (fun r =>
    match SPECIAL_WEIGHTS.lookup (reasonNorm r) with
    | some w => decide (3 ≤ w)
    | none => false)

/-- The inner keyword loop (lines 103-127): accumulated matched weight,
total possible weight, and matched keywords in iteration order. -/
def scanKeywords (tokens : List String) (normalized : String) :
    List String → Nat × Nat × List String
  | [] => (0, 0, [])
  | kw :: rest =>
    let kn := kwNorm kw
    let w := kwWeight kn
    let m := kwMatches tokens normalized kn
    let r := scanKeywords tokens normalized rest
    (r.1 + (if m then w else 0), w + r.2.1, if m then kw :: r.2.2 else r.2.2)

/-- Lines 129-139: the category entry stored in `scores`, when any
keyword matched.  The source computes `int((score_sum / total_possible)
* 100)` in floating point; for every total weight arising from the static
table (all lie in 4..19) this agrees with exact natural-number floor
division, which is what is written here. -/
def scoreCategory (tokens : List String) (normalized : String)
    (kws : List String) : Option CatScore :=
  let r := scanKeywords tokens normalized kws
  if 0 < r.1 ∧ 0 < r.2.1 then
    let base := min 100 (100 * r.1 / r.2.1)
    some ⟨if hasHighSignal r.2.2 then max base 60 else base, r.2.2⟩
  else none

/-! ## The state-passing embedding of `recommend_jobs`

The Python function reads the module-level tables `JOB_KEYWORDS` and
`JOB_TITLES`; the embedding threads them as explicit state so that their
preservation is a statement, not an assumption. -/

structure Tables where
  jobKeywords : List (String × List String)
  jobTitles : List (String × String)

def initTables : Tables := ⟨JOB_KEYWORDS, JOB_TITLES⟩

/-- The category loop of lines 99-139, reading the keyword table from the
state and building the `scores` association list in insertion order. -/
def scoreAllSt (tokens : List String) (normalized : String) :
    List (String × List String) → Tables → List (String × CatScore) × Tables
  | [], tb => ([], tb)
  | (key, kws) :: rest, tb =>
    let r := scoreAllSt tokens normalized rest tb
    ((match scoreCategory tokens normalized kws with
      | some cs => (key, cs) :: r.1
      | none => r.1), r.2)

/-- `JOB_TITLES[key].split()[0].lower()` used by the boost loop. -/
def firstWordLower (title : String) : String :=
  ⟨((wsWords title).headD "").data.map Char.toLower⟩

/-- The boost loop of lines 142-144: add 10 (capped at 100) when the
title's first word occurs in the joined token string.  `JOB_TITLES[key]`
cannot miss for keys produced by the static table; the total model reads
the title through a lookup with an empty-string default. -/
def boostSt (joined : String) :
    List (String × CatScore) → Tables → List (String × CatScore) × Tables
  | [], tb => ([], tb)
  | (key, cs) :: rest, tb =>
    let title := (tb.jobTitles.lookup key).getD ""
    let cs2 := if isSubstr (firstWordLower title).data joined.data then
        { cs with score := min 100 (cs.score + 10) } else cs
    let r := boostSt joined rest tb
    ((key, cs2) :: r.1, r.2)

/-- One step of Python's stable `sorted(..., reverse=True)`: the new
element goes after every already-placed element of score at least its
own, so equal scores keep their original order. -/
def insertDesc (x : String × CatScore) :
    List (String × CatScore) → List (String × CatScore)
  | [] => [x]
  | y :: rest => if x.2.score ≤ y.2.score then y :: insertDesc x rest
                 else x :: y :: rest

/-- `sorted(scores.items(), key=..., reverse=True)`: stable descending
sort by score. -/
def stableSortDesc (l : List (String × CatScore)) : List (String × CatScore) :=
  l.foldl (fun acc x => insertDesc x acc) []

/-- Python list slicing `l[:n]` for an arbitrary integer `n`. -/
def pyTake {α : Type} (n : Int) (l : List α) : List α :=
  if 0 ≤ n then l.take n.toNat else l.take (l.length - (-n).toNat)

structure JobRec where
  title : String
  score : Int
  reason : String
deriving DecidableEq

/-- The fallback entry of lines 158-161. -/
def fallbackRec : JobRec :=
  ⟨"Generalist / Entry-level", 50, "No strong keyword matches; broad role"⟩

/-- Lines 150-155: one result dict, with `JOB_TITLES.get(key, key)`. -/
def mkRec (titles : List (String × String)) (e : String × CatScore) : JobRec :=
  ⟨(titles.lookup e.1).getD e.1, (e.2.score : Int),
    "Matched keywords: " ++ String.intercalate ", " e.2.reasons⟩

/-- `recommend_jobs(text, n)` over explicit table state (lines 71-163).
Python's `if not text` on a string is the emptiness test. -/
def recommendJobsSt (tb : Tables) (text : String) (n : Int) :
    List JobRec × Tables :=
  if text = "" then ([], tb)
  else
    let normalized := normalizeText text
    let tokens := tokenize text
    let joined := String.intercalate " " tokens
    let p1 := scoreAllSt tokens normalized tb.jobKeywords tb
    let p2 := boostSt joined p1.1 p1.2
    let items := stableSortDesc p2.1
    let results := (pyTake n items).map (mkRec p2.2.jobTitles)
    (if results.isEmpty then [fallbackRec] else results, p2.2)

/-- `recommend_jobs(text, n)` as called by the servers, at the static
module tables (the default for `n` in the source is 5). -/
def recommend_jobs (text : String) (n : Int) : List JobRec :=
  (recommendJobsSt initTables text n).1

/-! ## Claim C1 -/

def c1Text : String := "Experienced Python developer with docker and aws"

/-- Claim C1, counterexample: on the input text of the claim, with the
default n = 5, the result list has no entry for the software category
with score at least 60 (its score is 33, because the keyword "python"
carries weight 2, below the weight-3 floor). -/
theorem C1_counterexample :
    ¬ (∃ r ∈ recommend_jobs c1Text 5, r.title = "Software Engineer" ∧ 60 ≤ r.score) := by
  decide

/-- Claim C1, amended: on the input text, with the default n = 5, the
results include the devops_engineer category with score at least 60 (the
weight-3 floor applies to "docker" and "aws"), and the software category
appears, but with score exactly 33. -/
theorem C1_amended :
    (∃ r ∈ recommend_jobs c1Text 5, r.title = "DevOps Engineer" ∧ 60 ≤ r.score) ∧
    (∃ r ∈ recommend_jobs c1Text 5, r.title = "Software Engineer" ∧ r.score = 33) := by
  decide

/-! ## Claim C3 -/

/-- Claim C3, counterexample: for n = 0 and the non-empty text "python",
the slice `items[:0]` is empty, the fallback fires, and the returned
list has length 1, which is not at most n = 0. -/
theorem C3_counterexample :
    ¬ (((recommend_jobs "python" 0).length : Int) ≤ 0) := by
  decide

/-! ## Spec-side quantities for the per-category score (Claim C7) -/

/-- Total possible weight of a category: the sum of the weights of all of
its keywords (spec wording). -/
def totalWeight (kws : List String) : Nat :=
  (kws.map (fun kw => kwWeight (kwNorm kw))).sum

/-- The matched keywords of a category, in keyword-list order (spec
wording). -/
def matchedKws (tokens : List String) (normalized : String)
    (kws : List String) : List String :=
  kws.filter (fun kw => kwMatches tokens normalized (kwNorm kw))

/-- Matched weight of a category: the sum of the weights of its matched
keywords (spec wording). -/
def matchedWeight (tokens : List String) (normalized : String)
    (kws : List String) : Nat :=
  ((matchedKws tokens normalized kws).map (fun kw => kwWeight (kwNorm kw))).sum

lemma scanKeywords_eq (tokens : List String) (normalized : String)
    (kws : List String) :
    scanKeywords tokens normalized kws =
      (matchedWeight tokens normalized kws, totalWeight kws,
        matchedKws tokens normalized kws) := by
  induction kws with
  | nil => rfl
  | cons kw rest ih =>
    simp only [scanKeywords, ih, matchedWeight, matchedKws, totalWeight,
      List.filter_cons, List.map_cons, List.sum_cons]
    by_cases h : kwMatches tokens normalized (kwNorm kw) <;>
      simp [h, Nat.add_comm]

lemma matchedWeight_le_totalWeight (tokens : List String) (normalized : String)
    (kws : List String) :
    matchedWeight tokens normalized kws ≤ totalWeight kws := by
  induction kws with
  | nil => exact Nat.le_refl 0
  | cons kw rest ih =>
    simp only [matchedWeight, matchedKws, totalWeight, List.filter_cons,
      List.map_cons, List.sum_cons] at *
    by_cases h : kwMatches tokens normalized (kwNorm kw) <;> simp [h] <;> omega

/-- Claim C7: for every category with at least one matched keyword, the
stored pre-boost score is floor(100 * matched_weight / total_weight)
capped at 100, additionally floored at 60 when some matched keyword's
normalized form carries weight at least 3 in the override table. -/
theorem C7_category_score (tokens : List String) (normalized : String)
    (kws : List String) (h : 0 < matchedWeight tokens normalized kws) :
    scoreCategory tokens normalized kws =
      some ⟨(if hasHighSignal (matchedKws tokens normalized kws) then
               max (min 100 (100 * matchedWeight tokens normalized kws /
                 totalWeight kws)) 60
             else
               min 100 (100 * matchedWeight tokens normalized kws /
                 totalWeight kws)),
            matchedKws tokens normalized kws⟩ := by
  have htw : 0 < totalWeight kws :=
    Nat.lt_of_lt_of_le h (matchedWeight_le_totalWeight tokens normalized kws)
  simp only [scoreCategory, scanKeywords_eq]
  rw [if_pos ⟨h, htw⟩]

/-- Witness for C7 at a concrete input: the single keyword "docker"
matches the token list ["docker"], carries weight 3, and the category
scores 100. -/
theorem C7_witness :
    0 < matchedWeight ["docker"] "docker" ["docker"] ∧
    scoreCategory ["docker"] "docker" ["docker"] =
      some ⟨(if hasHighSignal (matchedKws ["docker"] "docker" ["docker"]) then
               max (min 100 (100 * matchedWeight ["docker"] "docker" ["docker"] /
                 totalWeight ["docker"])) 60
             else
               min 100 (100 * matchedWeight ["docker"] "docker" ["docker"] /
                 totalWeight ["docker"])),
            matchedKws ["docker"] "docker" ["docker"]⟩ :=
  ⟨by decide, C7_category_score ["docker"] "docker" ["docker"] (by decide)⟩

/-! ## Claim C9: the static tables are never mutated -/

lemma scoreAllSt_snd (tokens : List String) (normalized : String) :
    ∀ (l : List (String × List String)) (tb : Tables),
      (scoreAllSt tokens normalized l tb).2 = tb
  | [], _ => rfl
  | (_, _) :: rest, tb => by
    simp only [scoreAllSt]
    exact scoreAllSt_snd tokens normalized rest tb

lemma boostSt_snd (joined : String) :
    ∀ (l : List (String × CatScore)) (tb : Tables),
      (boostSt joined l tb).2 = tb
  | [], _ => rfl
  | (_, _) :: rest, tb => by
    simp only [boostSt]
    exact boostSt_snd joined rest tb

/-- Claim C9: a call to `recommend_jobs` leaves the category tables
exactly as they were: the state returned by the table-passing embedding
equals the state passed in, for every table state, text and n. -/
theorem C9_tables_preserved (tb : Tables) (text : String) (n : Int) :
    (recommendJobsSt tb text n).2 = tb := by
  by_cases h : text = ""
  · simp [recommendJobsSt, h]
  · simp only [recommendJobsSt, if_neg h, boostSt_snd, scoreAllSt_snd]

/-! ## Claim C6: empty result iff falsy input; fallback on zero matches -/

lemma scoreAllSt_fst_nil (tokens : List String) (normalized : String) :
    ∀ (l : List (String × List String)) (tb : Tables),
      (∀ p ∈ l, scoreCategory tokens normalized p.2 = none) →
      (scoreAllSt tokens normalized l tb).1 = []
  | [], _, _ => rfl
  | (key, kws) :: rest, tb, h => by
    simp only [scoreAllSt]
    rw [h (key, kws) (List.mem_cons_self _ _)]
    exact scoreAllSt_fst_nil tokens normalized rest tb
      (fun p hp => h p (List.mem_cons_of_mem _ hp))

lemma pyTake_nil {α : Type} (n : Int) : pyTake n ([] : List α) = [] := by
  unfold pyTake
  split <;> simp

/-- Claim C6: `recommend_jobs` returns the empty list exactly when the
input text is empty (the only falsy string), and on a non-empty input
for which no category stores a score it returns exactly the single
fallback entry, whose score is 50. -/
theorem C6_empty_iff_and_fallback (t : String) (n : Int) :
    (recommend_jobs t n = [] ↔ t = "") ∧
    (t ≠ "" →
      (∀ p ∈ JOB_KEYWORDS, scoreCategory (tokenize t) (normalizeText t) p.2 = none) →
      recommend_jobs t n = [fallbackRec]) := by
  constructor
  · constructor
    · intro h
      by_contra ht
      simp only [recommend_jobs, recommendJobsSt, if_neg ht] at h
      split at h
      · exact List.cons_ne_nil _ _ h
      · rename_i hguard
        rw [h] at hguard
        simp at hguard
    · intro h
      subst h
      rfl
  · intro ht hnone
    simp only [recommend_jobs, recommendJobsSt, if_neg ht, initTables]
    rw [scoreAllSt_fst_nil _ _ _ _ hnone]
    simp [boostSt, stableSortDesc, pyTake_nil]

/-- Witness for C6 at a concrete input: "qqqq" is non-empty, matches no
category, and yields exactly the fallback entry. -/
theorem C6_witness :
    ("qqqq" : String) ≠ "" ∧ recommend_jobs "qqqq" 3 = [fallbackRec] :=
  ⟨by decide, (C6_empty_iff_and_fallback "qqqq" 3).2 (by decide) (by decide)⟩

/-! ## Claim C10: whitespace-only input -/

lemma char_prep_of_space {c : Char} (h : isPySpace c = true) :
    sepToSpace c.toLower = c := by
  have h' := of_decide_eq_true h
  rcases h' with h | h | h | h | h | h <;> subst h <;> decide

lemma map_prep_of_space {l : List Char} (h : ∀ c ∈ l, isPySpace c = true) :
    (l.map Char.toLower).map sepToSpace = l := by
  induction l with
  | nil => rfl
  | cons c rest ih =>
    simp only [List.map_cons]
    rw [char_prep_of_space (h c (List.mem_cons_self _ _)),
      ih (fun x hx => h x (List.mem_cons_of_mem _ hx))]

lemma collapseWsAux_space_true {l : List Char}
    (h : ∀ c ∈ l, isPySpace c = true) : collapseWsAux l true = [] := by
  induction l with
  | nil => rfl
  | cons c rest ih =>
    simp only [collapseWsAux, h c (List.mem_cons_self _ _), if_true]
    exact ih (fun x hx => h x (List.mem_cons_of_mem _ hx))

lemma stripWs_collapse_space {l : List Char}
    (h : ∀ c ∈ l, isPySpace c = true) : stripWs (collapseWsAux l false) = [] := by
  cases l with
  | nil => rfl
  | cons c rest =>
    have hc := h c (List.mem_cons_self _ _)
    have hrest : ∀ x ∈ rest, isPySpace x = true :=
      fun x hx => h x (List.mem_cons_of_mem _ hx)
    simp only [collapseWsAux, hc, if_true, collapseWsAux_space_true hrest]
    decide

lemma pyNormalizeChars_space {l : List Char}
    (h : ∀ c ∈ l, isPySpace c = true) : pyNormalizeChars l = [] := by
  unfold pyNormalizeChars
  rw [map_prep_of_space h]
  exact stripWs_collapse_space h

lemma normalizeText_space {t : String} (h : ∀ c ∈ t.data, isPySpace c = true) :
    normalizeText t = "" := by
  unfold normalizeText
  rw [pyNormalizeChars_space h]

lemma tokenize_space {t : String} (h : ∀ c ∈ t.data, isPySpace c = true) :
    tokenize t = [] := by
  unfold tokenize
  rw [pyNormalizeChars_space h]
  rfl

/-- Claim C10: a non-empty text made only of whitespace passes the falsy
check, normalizes to nothing, matches zero categories, and produces the
single fallback entry (score 50) rather than the empty list. -/
theorem C10_whitespace_fallback (t : String) (n : Int) (h1 : t ≠ "")
    (h2 : ∀ c ∈ t.data, isPySpace c = true) :
    recommend_jobs t n ≠ [] ∧ recommend_jobs t n = [fallbackRec] := by
  have hmain : recommend_jobs t n = [fallbackRec] := by
    simp only [recommend_jobs, recommendJobsSt, if_neg h1, tokenize_space h2,
      normalizeText_space h2]
    rw [scoreAllSt_fst_nil _ _ _ _ (by decide)]
    simp [boostSt, stableSortDesc, pyTake_nil]
  exact ⟨by rw [hmain]; exact List.cons_ne_nil _ _, hmain⟩

/-- Witness for C10 at the concrete input of the claim, a single space. -/
theorem C10_witness :
    recommend_jobs " " 5 ≠ [] ∧ recommend_jobs " " 5 = [fallbackRec] :=
  C10_whitespace_fallback " " 5 (by decide) (by decide)

/-! ## Claim C3 (amended): length and score bounds -/

lemma scoreCategory_score_le_100 {tokens : List String} {normalized : String}
    {kws : List String} {cs : CatScore}
    (h : scoreCategory tokens normalized kws = some cs) : cs.score ≤ 100 := by
  simp only [scoreCategory] at h
  split at h
  · injection h with h
    subst h
    dsimp only
    split <;> omega
  · cases h

lemma scoreAllSt_mem_score_le (tokens : List String) (normalized : String)
    (l : List (String × List String)) (tb : Tables) :
    ∀ e ∈ (scoreAllSt tokens normalized l tb).1, e.2.score ≤ 100 := by
  induction l with
  | nil => intro e he; exact absurd he (List.not_mem_nil e)
  | cons p rest ih =>
    obtain ⟨key, kws⟩ := p
    intro e he
    simp only [scoreAllSt] at he
    cases hsc : scoreCategory tokens normalized kws with
    | some cs =>
      rw [hsc] at he
      rcases List.mem_cons.mp he with he | he
      · subst he
        exact scoreCategory_score_le_100 hsc
      · exact ih e he
    | none =>
      rw [hsc] at he
      exact ih e he

lemma boostSt_mem_score_le (joined : String) (l : List (String × CatScore))
    (tb : Tables) (h : ∀ e ∈ l, e.2.score ≤ 100) :
    ∀ e ∈ (boostSt joined l tb).1, e.2.score ≤ 100 := by
  induction l with
  | nil => intro e he; exact absurd he (List.not_mem_nil e)
  | cons p rest ih =>
    obtain ⟨key, cs⟩ := p
    intro e he
    simp only [boostSt] at he
    rcases List.mem_cons.mp he with he | he
    · subst he
      dsimp only
      split
      · dsimp only; omega
      · exact h (key, cs) (List.mem_cons_self _ _)
    · exact ih (fun x hx => h x (List.mem_cons_of_mem _ hx)) e he

lemma mem_insertDesc (x a : String × CatScore) :
    ∀ (l : List (String × CatScore)), a ∈ insertDesc x l → a = x ∨ a ∈ l := by
  intro l
  induction l with
  | nil =>
    intro h
    simp only [insertDesc, List.mem_singleton] at h
    exact Or.inl h
  | cons y rest ih =>
    intro h
    simp only [insertDesc] at h
    split at h
    · rcases List.mem_cons.mp h with h | h
      · exact Or.inr (List.mem_cons.mpr (Or.inl h))
      · rcases ih h with h | h
        · exact Or.inl h
        · exact Or.inr (List.mem_cons.mpr (Or.inr h))
    · rcases List.mem_cons.mp h with h | h
      · exact Or.inl h
      · exact Or.inr h

lemma mem_stableSortDesc (a : String × CatScore) (l : List (String × CatScore)) :
    a ∈ stableSortDesc l → a ∈ l := by
  unfold stableSortDesc
  suffices h : ∀ (l acc : List (String × CatScore)),
      a ∈ l.foldl (fun acc x => insertDesc x acc) acc → a ∈ acc ∨ a ∈ l by
    intro hm
    rcases h l [] hm with h | h
    · exact absurd h (List.not_mem_nil a)
    · exact h
  intro l
  induction l with
  | nil => intro acc h; exact Or.inl h
  | cons x rest ih =>
    intro acc h
    simp only [List.foldl_cons] at h
    rcases ih (insertDesc x acc) h with h | h
    · rcases mem_insertDesc x a acc h with h | h
      · exact Or.inr (by simp [h])
      · exact Or.inl h
    · exact Or.inr (List.mem_cons_of_mem _ h)

lemma pyTake_subset {α : Type} (n : Int) (l : List α) :
    ∀ a ∈ pyTake n l, a ∈ l := by
  intro a ha
  unfold pyTake at ha
  split at ha <;> exact List.take_subset _ _ ha

lemma pyTake_length_le {α : Type} {n : Int} (hn : 0 ≤ n) (l : List α) :
    (pyTake n l).length ≤ n.toNat := by
  unfold pyTake
  rw [if_pos hn, List.length_take]
  exact Nat.min_le_left _ _

lemma pyTake_length_le_int {α : Type} {n : Int} (hn : 0 ≤ n) (l : List α) :
    ((pyTake n l).length : Int) ≤ n := by
  have h := Int.ofNat_le.mpr (pyTake_length_le hn l)
  rwa [Int.toNat_of_nonneg hn] at h

lemma mkRec_score (titles : List (String × String)) (e : String × CatScore) :
    (mkRec titles e).score = (e.2.score : Int) := rfl

/-- Claim C3, amended: for every text and every n at least 1, the result
has length at most n and every entry's score lies in [0, 100].  (For
n at most 0 the original claim fails: the fallback entry appears.) -/
theorem C3_amended (t : String) (n : Int) (hn : 1 ≤ n) :
    ((recommend_jobs t n).length : Int) ≤ n ∧
    ∀ r ∈ recommend_jobs t n, 0 ≤ r.score ∧ r.score ≤ 100 := by
  by_cases ht : t = ""
  · constructor
    · simp only [recommend_jobs, recommendJobsSt, if_pos ht, List.length_nil,
        Int.ofNat_zero]
      omega
    · intro r hr
      simp only [recommend_jobs, recommendJobsSt, if_pos ht] at hr
      exact absurd hr (List.not_mem_nil r)
  · simp only [recommend_jobs, recommendJobsSt, if_neg ht]
    split
    · constructor
      · simp only [List.length_singleton]
        omega
      · intro r hr
        rw [List.mem_singleton] at hr
        subst hr
        decide
    · rename_i hne
      constructor
      · rw [List.length_map]
        exact pyTake_length_le_int (by omega) _
      · intro r hr
        rcases List.mem_map.mp hr with ⟨e, he, rfl⟩
        have h1 := pyTake_subset _ _ _ he
        have h2 := mem_stableSortDesc e _ h1
        have h3 := boostSt_mem_score_le _ _ _
          (scoreAllSt_mem_score_le _ _ _ _) e h2
        rw [mkRec_score]
        refine ⟨Int.ofNat_nonneg _, ?_⟩
        exact_mod_cast h3

/-- Witness for C3 (amended) at a concrete input. -/
theorem C3_witness :
    ((recommend_jobs "python" 1).length : Int) ≤ 1 ∧
    ∀ r ∈ recommend_jobs "python" 1, 0 ≤ r.score ∧ r.score ≤ 100 :=
  C3_amended "python" 1 (by decide)

/-! ## The cosine-similarity computation of `embeddings_recommender.py`
(lines 62-64), over exact rationals.  The two L2 norms enter through the
predicate `IsL2Norm`, which characterizes them as the nonnegative numbers
whose squares are the sums of squares. -/

def dotList (a b : List ℚ) : ℚ := (List.zipWith (fun x y => x * y) a b).sum

def sumSq (v : List ℚ) : ℚ := (v.map (fun x => x * x)).sum

/-- The additive epsilon `1e-12` of line 63. -/
def cosEps : ℚ := 1 / 10 ^ 12

/-- The denominator of the similarity: product of the two L2 norms plus
the epsilon. -/
def cosineDenom (na nb : ℚ) : ℚ := na * nb + cosEps

/-- One entry of `sims`: the dot product of a category vector and the
query vector over the denominator built from their norms. -/
def cosineSim (a b : List ℚ) (na nb : ℚ) : ℚ :=
  dotList a b / cosineDenom na nb

/-- `x` is the L2 norm of `v`. -/
def IsL2Norm (v : List ℚ) (x : ℚ) : Prop := 0 ≤ x ∧ x * x = sumSq v

lemma dotList_cons (x y : ℚ) (a b : List ℚ) :
    dotList (x :: a) (y :: b) = x * y + dotList a b := by
  simp [dotList]

lemma sumSq_cons (x : ℚ) (v : List ℚ) : sumSq (x :: v) = x * x + sumSq v := by
  simp [sumSq]

lemma sumSq_nonneg (v : List ℚ) : 0 ≤ sumSq v := by
  induction v with
  | nil => simp [sumSq]
  | cons x rest ih =>
    rw [sumSq_cons]
    nlinarith [mul_self_nonneg x]

/-- Cauchy-Schwarz for the truncating dot product of two rational lists. -/
lemma dotList_sq_le (a : List ℚ) : ∀ (b : List ℚ),
    dotList a b * dotList a b ≤ sumSq a * sumSq b := by
  induction a with
  | nil =>
    intro b
    simp [dotList, sumSq]
  | cons x a2 iha =>
    intro b
    cases b with
    | nil =>
      simp only [dotList, List.zipWith_nil_right, List.sum_nil]
      nlinarith [sumSq_nonneg (x :: a2), sumSq_nonneg ([] : List ℚ),
        mul_nonneg (sumSq_nonneg (x :: a2)) (sumSq_nonneg ([] : List ℚ))]
    | cons y b2 =>
      have ih := iha b2
      have hA := sumSq_nonneg a2
      have hB := sumSq_nonneg b2
      rw [dotList_cons, sumSq_cons, sumSq_cons]
      by_cases hA0 : sumSq a2 = 0
      · have hd : dotList a2 b2 = 0 := by
          rw [hA0] at ih
          nlinarith [mul_self_nonneg (dotList a2 b2), ih]
        rw [hA0, hd]
        nlinarith [mul_self_nonneg x, mul_self_nonneg y, hB,
          mul_nonneg (mul_self_nonneg x) hB]
      · have hApos : 0 < sumSq a2 := lt_of_le_of_ne hA (Ne.symm hA0)
        nlinarith [mul_self_nonneg (dotList a2 b2 * x - y * sumSq a2),
          mul_nonneg (add_nonneg (mul_self_nonneg x) hA) (sub_nonneg.mpr ih),
          hApos]

/-- Claim C8: for every pair of vectors and their L2 norms, the
denominator of the cosine-similarity computation is strictly positive,
so the division is always defined. -/
theorem C8_denominator_pos (a b : List ℚ) (na nb : ℚ)
    (ha : IsL2Norm a na) (hb : IsL2Norm b nb) : 0 < cosineDenom na nb := by
  have h1 : 0 ≤ na * nb := mul_nonneg ha.1 hb.1
  have h2 : 0 < cosEps := by norm_num [cosEps]
  unfold cosineDenom
  linarith

/-- Witness for C8 at a concrete pair of vectors. -/
theorem C8_witness :
    IsL2Norm [(1 : ℚ)] 1 ∧ 0 < cosineDenom 1 1 :=
  ⟨by constructor <;> norm_num [sumSq],
   C8_denominator_pos [(1 : ℚ)] [(1 : ℚ)] 1 1
     (by constructor <;> norm_num [sumSq])
     (by constructor <;> norm_num [sumSq])⟩

/-- Claim C5, counterexample: for the one-dimensional unit vectors [1]
and [-1] (each its own L2 norm being 1), the computed similarity is
-1/(1 + 1e-12), which is negative, hence outside [0, 1]. -/
theorem C5_counterexample :
    IsL2Norm [(1 : ℚ)] 1 ∧ IsL2Norm [(-1 : ℚ)] 1 ∧
    ¬ (0 ≤ cosineSim [(1 : ℚ)] [(-1 : ℚ)] 1 1 ∧
        cosineSim [(1 : ℚ)] [(-1 : ℚ)] 1 1 ≤ 1) := by
  refine ⟨by constructor <;> norm_num [sumSq], by constructor <;> norm_num [sumSq], ?_⟩
  intro h
  have h0 := h.1
  rw [cosineSim, cosineDenom, cosEps] at h0
  norm_num [dotList] at h0

/-- Claim C5, amended: for every pair of vectors and their L2 norms, the
similarity lies in [-1, 1] (the positive epsilon keeps it strictly
inside); it is not guaranteed to be nonnegative. -/
theorem C5_amended (a b : List ℚ) (na nb : ℚ)
    (ha : IsL2Norm a na) (hb : IsL2Norm b nb) :
    -1 ≤ cosineSim a b na nb ∧ cosineSim a b na nb ≤ 1 := by
  obtain ⟨ha0, haSq⟩ := ha
  obtain ⟨hb0, hbSq⟩ := hb
  have hcs : dotList a b * dotList a b ≤ (na * nb) * (na * nb) := by
    have h := dotList_sq_le a b
    rw [← haSq, ← hbSq] at h
    nlinarith [h]
  have hnn : 0 ≤ na * nb := mul_nonneg ha0 hb0
  have hub : dotList a b ≤ na * nb := by nlinarith [hcs, hnn]
  have hlb : -(na * nb) ≤ dotList a b := by nlinarith [hcs, hnn]
  have heps : 0 < cosEps := by norm_num [cosEps]
  have hD : 0 < cosineDenom na nb := by unfold cosineDenom; linarith
  constructor
  · rw [cosineSim, le_div_iff₀ hD, cosineDenom]
    nlinarith [hlb, heps]
  · rw [cosineSim, div_le_one hD, cosineDenom]
    linarith [hub, heps]

/-- Witness for C5 (amended) at a concrete pair of vectors. -/
theorem C5_witness :
    IsL2Norm [(1 : ℚ)] 1 ∧
    (-1 ≤ cosineSim [(1 : ℚ)] [(1 : ℚ)] 1 1 ∧
      cosineSim [(1 : ℚ)] [(1 : ℚ)] 1 1 ≤ 1) :=
  ⟨by constructor <;> norm_num [sumSq],
   C5_amended [(1 : ℚ)] [(1 : ℚ)] 1 1
     (by constructor <;> norm_num [sumSq])
     (by constructor <;> norm_num [sumSq])⟩

/-! ## The request handler of `recommend_server.py` (Claim C2) -/

inductive HandlerResponse where
  | ok (recs : List JobRec)
  | badRequest (msg : String)
  | serverError (msg : String)
  | uncaught (msg : String)
deriving DecidableEq

/-- The names bound at module level of `recommend_server.py` by its
imported names and definitions: `Flask`, `request`, `jsonify` (line 8),
`CORS` (line 9), `recommend_jobs` (line 10), plus `app` and the handler
`recommend` itself.  The module never imports `os`. -/
def serverModuleNames : List String :=
  ["Flask", "request", "jsonify", "CORS", "recommend_jobs", "app", "recommend"]

/-- Whether the name `os` is bound when the handler body runs. -/
def osImported : Bool := serverModuleNames.contains "os"

structure PyRequest where
  text : Option String
  n : Option Int

/-- The handler of lines 17-43 for a request whose `text` field is
already a string (so `str(text)` succeeds and the 400 branch is not
taken): it reads `text`, then evaluates
`os.environ.get("RECOMMEND_MAX_CHARS", 15000)` on line 27 outside any
try block, which raises `NameError` when `os` is unbound; only
otherwise does it truncate, read `n` and call the scorer. -/
def recommendHandler (req : PyRequest) (envMaxChars : Nat) : HandlerResponse :=
  let text0 := req.text.getD ""
  if osImported = false then
    HandlerResponse.uncaught "NameError: name os is not defined"
  else
    let text1 : String :=
      if envMaxChars < text0.length then ⟨text0.data.take envMaxChars⟩ else text0
    let n := req.n.getD 5
    HandlerResponse.ok (recommend_jobs text1 n)

/-- A request whose text has 15001 characters, longer than the default
maximum of 15000. -/
def longRequest : PyRequest := ⟨some ⟨List.replicate 15001 'a'⟩, none⟩

/-- Claim C2, code-bug evaluation: on a request whose text exceeds the
maximum character count, the handler does not truncate and return 200
with recommendations; it raises `NameError` (the module uses `os` on
line 27 without importing it), which escapes the handler. -/
theorem C2_code_bug_eval :
    15000 < (longRequest.text.getD "").data.length ∧
    recommendHandler longRequest 15000 =
      HandlerResponse.uncaught "NameError: name os is not defined" ∧
    ∀ recs, recommendHandler longRequest 15000 ≠ HandlerResponse.ok recs := by
  refine ⟨?_, rfl, ?_⟩
  · show 15000 < (List.replicate 15001 'a').length
    rw [List.length_replicate]
    norm_num
  · intro recs h
    exact HandlerResponse.noConfusion h
